import Mathlib

/-!
Verification development for the Zillow analysis utilities (`util.py`).

The file shallowly embeds the two core functions of the repository:

* `melt_zillow_dataset` — wide-to-long reshape: drop columns, drop excluded
  region rows (in place on the caller's frame), melt, parse the date labels,
  optionally drop null values, optionally set an index.
* `get_top_regions_by_mom_change` — trailing-window filter, group-by-region
  mean of the month-over-month change, descending sort, head truncation.

Tables are modelled as lists of rows; cells are a sum of null / rational
number / string / date.  Machine floats of the original are modelled as
rationals (only equality and arithmetic mean are ever used).  Fallible
dataframe operations (missing columns, unparseable dates) return
`Except String`.  Because the Python code mutates its argument in place in
one step, both embedded entry points also return the final state of the
caller's table, making frame effects provable.
-/

namespace Zillow

deriving instance DecidableEq for Except

/-- Calendar date, year/month/day. -/
structure Date where
  y : Nat
  m : Nat
  d : Nat
deriving DecidableEq

/-- Gregorian leap-year test. -/
def isLeap (y : Nat) : Bool :=
  (y % 4 == 0 && y % 100 != 0) || y % 400 == 0

/-- Number of days in a month of a given year. -/
def daysInMonth (y m : Nat) : Nat :=
  if m = 2 then (if isLeap y then 29 else 28)
  else if m = 4 ∨ m = 6 ∨ m = 9 ∨ m = 11 then 30 else 31

/-- Lexicographic order on dates, matching pandas `Timestamp` comparison. -/
def Date.le (a b : Date) : Prop :=
  a.y < b.y ∨ (a.y = b.y ∧ (a.m < b.m ∨ (a.m = b.m ∧ a.d ≤ b.d)))

instance (a b : Date) : Decidable (Date.le a b) := by
  unfold Date.le; infer_instance

/-- A date is valid when month and day lie in calendar range. -/
def Date.Valid (a : Date) : Prop :=
  1 ≤ a.m ∧ a.m ≤ 12 ∧ 1 ≤ a.d ∧ a.d ≤ daysInMonth a.y a.m

instance (a : Date) : Decidable (Date.Valid a) := by
  unfold Date.Valid; infer_instance

/-- Subtraction of `k` calendar months, the semantics of
`ts - pd.DateOffset(months=k)`: shift the month back by `k` and clamp the
day to the length of the target month.  (The Python `months` argument is an
`int`; the embedding models the non-negative case used by the program.) -/
def Date.subMonths (a : Date) (k : Nat) : Date :=
  let total := a.y * 12 + (a.m - 1) - k
  ⟨total / 12, total % 12 + 1, min a.d (daysInMonth (total / 12) (total % 12 + 1))⟩

/-- Value of a decimal digit character, `none` otherwise. -/
def digitVal? (c : Char) : Option Nat :=
  if 48 ≤ c.toNat ∧ c.toNat ≤ 57 then some (c.toNat - 48) else none

/-- Read a nonempty all-digit character list as a natural number. -/
def digitsToNatAux : List Char → Nat → Option Nat
  | [], acc => some acc
  | c :: l, acc =>
    match digitVal? c with
    | some v => digitsToNatAux l (acc * 10 + v)
    | none => none

/-- Decimal value of a nonempty digit string, `none` otherwise. -/
def digitsToNat? : List Char → Option Nat
  | [] => none
  | c :: l => digitsToNatAux (c :: l) 0

/-- Split a character list on the dash separator. -/
def splitDash : List Char → List (List Char)
  | [] => [[]]
  | c :: l =>
    let r := splitDash l
    if c = '-' then [] :: r
    else
      match r with
      | [] => [[c]]
      | g :: gs => (c :: g) :: gs

/-- Parse an ISO `YYYY-MM-DD` date label, the format of the Zillow value
columns, as `pd.to_datetime` does; `none` on malformed labels. -/
def parseDate (s : String) : Option Date :=
  match splitDash s.data with
  | [ys, ms, ds] =>
    match digitsToNat? ys, digitsToNat? ms, digitsToNat? ds with
    | some yv, some mv, some dv =>
      if 1 ≤ mv ∧ mv ≤ 12 ∧ 1 ≤ dv ∧ dv ≤ daysInMonth yv mv then
        some ⟨yv, mv, dv⟩
      else none
    | _, _, _ => none
  | _ => none

/-- A dataframe cell: null (NaN), a number, a string, or a parsed date. -/
inductive Cell where
  | null
  | num (q : ℚ)
  | str (s : String)
  | date (d : Date)
deriving DecidableEq

/-- A pandas DataFrame: named columns, rows of cells, and an optional
named index (set by `set_index`, which moves a column into the index). -/
structure DataFrame where
  cols : List String
  rows : List (List Cell)
  indexName : Option String := none
  indexVals : List Cell := []
deriving DecidableEq

/-- Cell of a row at a column position (null when out of range, matching
the total-function style of the embedding; all pipeline rows are full). -/
def cellAt (r : List Cell) (i : Nat) : Cell := r.getD i Cell.null

/-- Position of the first column with a given name. -/
def colFind (c : String) : List String → Option Nat
  | [] => none
  | a :: l => if a = c then some 0 else (colFind c l).map (· + 1)

/-- Position of the first column named `c` in a frame. -/
def colIdx? (df : DataFrame) (c : String) : Option Nat := colFind c df.cols

/-- The hardcoded Zillow id of the whole-country aggregate row. -/
def US_COUNTRY_REGION_ID : ℚ := 102001

/-- Embedding of `df.drop(columns=fs)`: a new frame without the listed
columns; `KeyError` when a listed column does not exist. -/
def dropColumns (df : DataFrame) (fs : List String) : Except String DataFrame :=
  if fs.all (fun f => decide (f ∈ df.cols)) then
    Except.ok
      { cols := df.cols.filter (fun c => !decide (c ∈ fs)),
        rows := df.rows.map (fun r =>
          ((df.cols.zip r).filter (fun p => !decide (p.1 ∈ fs))).map (·.2)),
        indexName := df.indexName, indexVals := df.indexVals }
  else Except.error "KeyError: drop columns"

/-- Embedding of `df.drop(df[df['RegionID'].isin(regions)].index,
inplace=True)`: remove the rows whose `RegionID` cell is in `regions`.
The column name `RegionID` is hardcoded, exactly as in the source;
`KeyError` when no such column exists. -/
def dropRegionRows (df : DataFrame) (regions : List Cell) : Except String DataFrame :=
  match colIdx? df "RegionID" with
  | none => Except.error "KeyError: RegionID"
  | some i =>
    Except.ok { df with rows := df.rows.filter (fun r => !decide (cellAt r i ∈ regions)) }

/-- The first two steps of `melt_zillow_dataset`: the conditional column
drop (lines 12-13) and the conditional excluded-region row drop
(lines 15-16). -/
def afterDrops (df : DataFrame) (fs : List String) (regions : List Cell) :
    Except String DataFrame :=
  match (if 0 < fs.length then dropColumns df fs else Except.ok df) with
  | Except.error e => Except.error e
  | Except.ok df1 =>
    if 0 < regions.length then dropRegionRows df1 regions else Except.ok df1

/-- The value columns of a melt: every column not among the id fields, in
column order. -/
def meltValueCols (cols : List String) (id_fields : List String) : List String :=
  cols.filter (fun c => !decide (c ∈ id_fields))

/-- One output row of `df.melt`: the id-field cells of the source row,
then the value-column label, then the source cell of that column. -/
def meltRow (df : DataFrame) (id_fields : List String) (v : String) (r : List Cell) :
    List Cell :=
  id_fields.map (fun f => cellAt r ((colIdx? df f).getD 0)) ++
    [Cell.str v, cellAt r ((colIdx? df v).getD 0)]

/-- Embedding of `df.melt(id_vars=id_fields, var_name=date_col,
value_name=value_col)`: one output row per value-column x source-row pair,
value columns outermost, as pandas produces them; the output gets a fresh
default index. -/
def meltStep (df : DataFrame) (id_fields : List String) (date_col value_col : String) :
    Except String DataFrame :=
  if id_fields.all (fun f => decide (f ∈ df.cols)) then
    Except.ok
      { cols := id_fields ++ [date_col, value_col],
        rows := (meltValueCols df.cols id_fields).flatMap (fun v =>
          df.rows.map (meltRow df id_fields v)),
        indexName := none, indexVals := [] }
  else Except.error "KeyError: id_vars"

/-- Option-valued traversal of a list, `none` as soon as `f` fails. -/
def mapMOpt (f : α → Option β) : List α → Option (List β)
  | [] => some []
  | a :: l =>
    match f a, mapMOpt f l with
    | some b, some l2 => some (b :: l2)
    | _, _ => none

/-- Conversion of one cell by `pd.to_datetime`: parse strings, keep dates,
keep null (`NaN` becomes `NaT`).  Numeric epoch interpretation is not
modelled (unreachable here: melt's date column holds string labels). -/
def convDateCell : Cell → Option Cell
  | Cell.str s => (parseDate s).map Cell.date
  | Cell.date dd => some (Cell.date dd)
  | Cell.null => some Cell.null
  | Cell.num _ => none

/-- Embedding of `df[c] = pd.to_datetime(df[c])` (line 22): convert every
cell of column `c`; a parse failure raises. -/
def toDatetimeCol (df : DataFrame) (c : String) : Except String DataFrame :=
  match colIdx? df c with
  | none => Except.error "KeyError: to_datetime column"
  | some i =>
    match mapMOpt (fun r => (convDateCell (cellAt r i)).map (fun x => r.set i x)) df.rows with
    | some rs => Except.ok { df with rows := rs }
    | none => Except.error "to_datetime: parse error"

/-- Embedding of `df.dropna(subset=[c])` (line 26): keep the rows whose
cell in column `c` is not null. -/
def dropNaRows (df : DataFrame) (c : String) : Except String DataFrame :=
  match colIdx? df c with
  | none => Except.error "KeyError: dropna subset"
  | some i =>
    Except.ok { df with rows := df.rows.filter (fun r => !decide (cellAt r i = Cell.null)) }

/-- Embedding of `df.set_index(f, inplace=True)` (line 29): move column `f`
out of the columns and into the index. -/
def setIndexStep (df : DataFrame) (f : String) : Except String DataFrame :=
  match colIdx? df f with
  | none => Except.error "KeyError: set_index"
  | some i =>
    Except.ok
      { cols := df.cols.eraseIdx i,
        rows := df.rows.map (fun r => r.eraseIdx i),
        indexName := some f,
        indexVals := df.rows.map (fun r => cellAt r i) }

/-- Embedding of `melt_zillow_dataset` (util.py lines 8-31).  The first
component is the function's result (or the propagated exception), the
second the caller's table after the call: the line-16 row drop is
`inplace=True`, so it reaches the caller's object exactly when line 13 did
not already rebind `df` to the copy returned by the column drop. -/
def melt_zillow_dataset (df : DataFrame) (id_fields : List String)
    (fields_to_drop : List String := []) (regions_to_drop : List Cell := [Cell.num US_COUNTRY_REGION_ID])
    (date_col : String := "Date") (value_col : String := "Value")
    (index_field : Option String := none) (drop_na : Bool := true) :
    Except String DataFrame × DataFrame :=
  match afterDrops df fields_to_drop regions_to_drop with
  | Except.error e => (Except.error e, df)
  | Except.ok df2 =>
    let callerAfter := if 0 < fields_to_drop.length then df else df2
    match meltStep df2 id_fields date_col value_col with
    | Except.error e => (Except.error e, callerAfter)
    | Except.ok df3 =>
      match toDatetimeCol df3 date_col with
      | Except.error e => (Except.error e, callerAfter)
      | Except.ok df4 =>
        match (if drop_na then dropNaRows df4 value_col else Except.ok df4) with
        | Except.error e => (Except.error e, callerAfter)
        | Except.ok df5 =>
          match index_field with
          | none => (Except.ok df5, callerAfter)
          | some f =>
            match setIndexStep df5 f with
            | Except.error e => (Except.error e, callerAfter)
            | Except.ok df6 => (Except.ok df6, callerAfter)

/-- A row of the long table consumed by `get_top_regions_by_mom_change`,
typed with the four columns the function reads: the column-name
indirection of the Python parameters (`date_col`, `region_id_col`,
`region_name_col`, `mom_change_col`) is elided, since the function only
ever reads these four columns by name.  The month-over-month metric is
`Option ℚ`: `none` models a `NaN` cell. -/
structure LongRow where
  regionId : ℚ
  regionName : String
  date : Date
  mom : Option ℚ
deriving DecidableEq

/-- A row of the ranked output: `groupby([...]).mean().reset_index()`
yields region id, region name and the averaged metric (`none` when every
metric cell of the group was `NaN`). -/
structure RankedRow where
  regionId : ℚ
  regionName : String
  mom : Option ℚ
deriving DecidableEq

/-- Embedding of `df[date_col].max()` (line 52): the maximum date present
in the table, `none` on an empty table (pandas `NaT`). -/
def maxDate (df : List LongRow) : Option Date :=
  match df.map (fun r => r.date) with
  | [] => none
  | dd :: ds => some (ds.foldl (fun a b => if Date.le a b then b else a) dd)

/-- Embedding of `df[df[date_col] >= last_n_months]` (line 58) together
with line 55: keep the rows whose date is at or after the maximum date
minus `months` calendar months.  On an empty table the maximum is `NaT`
and every comparison is false, so nothing is kept. -/
def windowRows (df : List LongRow) (months : Nat) : List LongRow :=
  match maxDate df with
  | none => []
  | some mx => df.filter (fun r => decide (Date.le (Date.subMonths mx months) r.date))

/-- Byte-wise lexicographic comparison of characters lists, the order
pandas uses on string group keys. -/
def charsLe : List Char → List Char → Bool
  | [], _ => true
  | _ :: _, [] => false
  | a :: l, b :: l2 =>
    if a.toNat < b.toNat then true
    else if a.toNat = b.toNat then charsLe l l2
    else false

/-- Lexicographic order on strings. -/
def strLe (a b : String) : Bool := charsLe a.data b.data

/-- Group-key order used by `groupby(sort=True)`: region id, then name. -/
def keyLe (a b : ℚ × String) : Bool :=
  decide (a.1 < b.1) || (decide (a.1 = b.1) && strLe a.2 b.2)

/-- Insert a group key into an ascending key list. -/
def insertKey (x : ℚ × String) : List (ℚ × String) → List (ℚ × String)
  | [] => [x]
  | b :: t => if keyLe x b then x :: b :: t else b :: insertKey x t

/-- Sort group keys ascending, as `groupby` (default `sort=True`) orders
its result. -/
def sortKeys : List (ℚ × String) → List (ℚ × String)
  | [] => []
  | a :: l => insertKey a (sortKeys l)

/-- The distinct (region id, region name) pairs occurring in the table. -/
def keysOf (df : List LongRow) : List (ℚ × String) :=
  (df.map (fun r => (r.regionId, r.regionName))).dedup

/-- Mean of the metric within one group, skipping `NaN` cells as pandas
`mean()` does; `none` (a `NaN` mean) when the group has no numeric cell. -/
def groupMean (df : List LongRow) (k : ℚ × String) : Option ℚ :=
  let vals := (df.filter (fun r => decide ((r.regionId, r.regionName) = k))).filterMap
    (fun r => r.mom)
  if vals.length = 0 then none else some (vals.sum / (vals.length : ℚ))

/-- Embedding of
`df.groupby([region_id_col, region_name_col])[mom_change_col].mean().reset_index()`
(line 61): one row per distinct group key, keys ascending. -/
def avg_mom (df : List LongRow) : List RankedRow :=
  (sortKeys (keysOf df)).map (fun k => ⟨k.1, k.2, groupMean df k⟩)

/-- Sort key of a ranked row; only applied to rows with a numeric mean. -/
def rkey (a : RankedRow) : ℚ := a.mom.getD 0

/-- Insert into a descending-by-mean list, before the first row whose key
is not larger: ties go before previously inserted equal keys. -/
def insertDesc (x : RankedRow) : List RankedRow → List RankedRow
  | [] => [x]
  | b :: t => if rkey b ≤ rkey x then x :: b :: t else b :: insertDesc x t

/-- Stable descending insertion sort by mean. -/
def sortDesc : List RankedRow → List RankedRow
  | [] => []
  | a :: l => insertDesc a (sortDesc l)

/-- Embedding of `sort_values(by=mom_change_col, ascending=False)`
(line 64).  pandas `nargsort` masks the `NaN` keys out, argsorts the rest
on the reversed array, reverses the result back, and appends the `NaN`
positions in original order (`na_position='last'`).  The underlying numpy
argsort runs with the default `kind='quicksort'`, which pandas documents
as not stable: the relative order of tied keys in the real program is
unspecified.  An executable embedding must pick a deterministic order;
this one uses a stable insertion sort.  The tie order of the model is
therefore a determinisation choice, not a guarantee of the program, and
no theorem in this file relies on it — the theorems below use only the
length of the result and the equality of two runs of the same model. -/
def sortValuesDesc (l : List RankedRow) : List RankedRow :=
  sortDesc (l.filter (fun a => !decide (a.mom = none))) ++
    l.filter (fun a => decide (a.mom = none))

/-- Embedding of `.head(n)` (line 64), i.e. Python slicing `iloc[:n]`:
the first `n` rows for `n ≥ 0`, and all but the last `|n|` rows for
negative `n`. -/
def pdHead (n : Int) (l : List α) : List α :=
  l.take (if 0 ≤ n then n.toNat else l.length - (-n).toNat)

/-- Embedding of `get_top_regions_by_mom_change` (util.py lines 33-66).
The first component is the returned ranked table; the second is the
caller's table after the call — every operation used (max, `DateOffset`
subtraction, boolean-mask selection, `groupby().mean().reset_index()`,
`sort_values` without `inplace`, `head`) returns a new object, so the
input threads through untouched. -/
def get_top_regions_by_mom_change (df : List LongRow) (months : Nat := 12)
    (top_n : Int := 25) : List RankedRow × List LongRow :=
  let df_last_n_months := windowRows df months
  let avg_mom_last_n_months := avg_mom df_last_n_months
  let top_regions := pdHead top_n (sortValuesDesc avg_mom_last_n_months)
  (top_regions, df)

/-- Modelled from the spec: the ranking pipeline with no window filter at
all — grouping, averaging, sorting and truncating over the whole table
(spec section 8, "yields the same result as no window filter at all").
Used only as the comparison side of the refinement claim C9. -/
def rank_no_window (df : List LongRow) (top_n : Int) : List RankedRow :=
  pdHead top_n (sortValuesDesc (avg_mom df))

/-! ### List-level helper lemmas -/

theorem getD_cons (a : α) (l : List α) (n : Nat) (d : α) :
    (a :: l).getD (n + 1) d = l.getD n d := rfl

theorem getD_append_lt (l₁ l₂ : List α) (i : Nat) (d : α) (h : i < l₁.length) :
    (l₁ ++ l₂).getD i d = l₁.getD i d := by
  induction l₁ generalizing i with
  | nil => simp at h
  | cons a t ih =>
    cases i with
    | zero => rfl
    | succ j => simpa using ih j (by simpa using h)

theorem getD_append_len (l₁ : List α) (a : α) (l₂ : List α) (d : α) :
    (l₁ ++ a :: l₂).getD l₁.length d = a := by
  induction l₁ with
  | nil => rfl
  | cons b t ih => simpa using ih

theorem getD_append_len₂ (l₁ : List α) (a b : α) (l₂ : List α) (d : α) :
    (l₁ ++ a :: b :: l₂).getD (l₁.length + 1) d = b := by
  induction l₁ with
  | nil => rfl
  | cons c t ih => simpa using ih

theorem set_append_len (l₁ : List α) (a : α) (l₂ : List α) (b : α) :
    (l₁ ++ a :: l₂).set l₁.length b = l₁ ++ b :: l₂ := by
  induction l₁ with
  | nil => rfl
  | cons c t ih => simp [ih]

theorem getD_set_ne (l : List α) (i j : Nat) (b : α) (d : α) (h : i ≠ j) :
    (l.set i b).getD j d = l.getD j d := by
  induction l generalizing i j with
  | nil => rfl
  | cons a t ih =>
    cases i with
    | zero =>
      cases j with
      | zero => exact absurd rfl h
      | succ k => rfl
    | succ i2 =>
      cases j with
      | zero => rfl
      | succ k => simpa using ih i2 k (by omega)

theorem getD_map_lt (f : α → β) (l : List α) (i : Nat) (d : β) (d2 : α)
    (h : i < l.length) : (l.map f).getD i d = f (l.getD i d2) := by
  induction l generalizing i with
  | nil => simp at h
  | cons a t ih =>
    cases i with
    | zero => rfl
    | succ j => simpa using ih j (by simpa using h)

theorem getD_eraseIdx_lt (l : List α) (i j : Nat) (d : α) (h : j < i) :
    (l.eraseIdx i).getD j d = l.getD j d := by
  induction l generalizing i j with
  | nil => rfl
  | cons a t ih =>
    cases i with
    | zero => omega
    | succ i2 =>
      cases j with
      | zero => rfl
      | succ k => simpa using ih i2 k (by omega)

theorem getD_eraseIdx_ge (l : List α) (i j : Nat) (d : α) (hle : i ≤ j)
    (hi : i < l.length) : (l.eraseIdx i).getD j d = l.getD (j + 1) d := by
  induction l generalizing i j with
  | nil => simp at hi
  | cons a t ih =>
    cases i with
    | zero => rfl
    | succ i2 =>
      cases j with
      | zero => omega
      | succ k => simpa using ih i2 k (by omega) (by simpa using hi)

theorem length_flatMap_const (l : List α) (f : α → List β) (n : Nat)
    (h : ∀ a ∈ l, (f a).length = n) : (l.flatMap f).length = l.length * n := by
  induction l with
  | nil => simp
  | cons a t ih =>
    simp only [List.flatMap_cons, List.length_append, List.length_cons]
    rw [h a (by simp), ih (fun b hb => h b (by simp [hb]))]
    ring

/-! ### Lemmas about `colFind` -/

theorem colFind_eq_none (c : String) (l : List String) :
    colFind c l = none ↔ ¬ c ∈ l := by
  induction l with
  | nil => simp [colFind]
  | cons a t ih =>
    by_cases h : a = c
    · simp [colFind, h]
    · rw [colFind, if_neg h]
      constructor
      · intro hm hmem
        have ht : colFind c t = none := by
          cases hc : colFind c t with
          | none => rfl
          | some i => rw [hc] at hm; simp at hm
        rcases List.mem_cons.mp hmem with h1 | h1
        · exact h h1.symm
        · exact (ih.mp ht) h1
      · intro hm
        have hnt : ¬ c ∈ t := fun hh => hm (List.mem_cons_of_mem _ hh)
        rw [ih.mpr hnt]
        rfl

theorem colFind_isSome_of_mem (c : String) (l : List String) (h : c ∈ l) :
    ∃ i, colFind c l = some i := by
  cases hc : colFind c l with
  | none => exact absurd h ((colFind_eq_none c l).mp hc)
  | some i => exact ⟨i, rfl⟩

theorem colFind_lt_length (c : String) (l : List String) (i : Nat)
    (h : colFind c l = some i) : i < l.length := by
  induction l generalizing i with
  | nil => simp [colFind] at h
  | cons a t ih =>
    by_cases ha : a = c
    · simp only [colFind, if_pos ha, Option.some_inj] at h
      simp only [List.length_cons]
      omega
    · simp only [colFind, if_neg ha] at h
      cases hc : colFind c t with
      | none => rw [hc] at h; simp at h
      | some j =>
        rw [hc] at h; simp at h
        have hj := ih j hc
        simp only [List.length_cons]
        omega

theorem colFind_getD (c : String) (l : List String) (i : Nat) (d : String)
    (h : colFind c l = some i) : l.getD i d = c := by
  induction l generalizing i with
  | nil => simp [colFind] at h
  | cons a t ih =>
    by_cases ha : a = c
    · simp [colFind, ha] at h; subst h; simpa using ha
    · simp only [colFind, if_neg ha] at h
      cases hc : colFind c t with
      | none => rw [hc] at h; simp at h
      | some j =>
        rw [hc] at h; simp at h
        subst h; simpa using ih j hc

theorem colFind_append_left₁ (dc vc : String) (idf : List String)
    (h : ¬ dc ∈ idf) : colFind dc (idf ++ [dc, vc]) = some idf.length := by
  induction idf with
  | nil => simp [colFind]
  | cons a t ih =>
    have ha : a ≠ dc := by intro hh; exact h (by simp [hh])
    have ih2 := ih (by intro hh; exact h (by simp [hh]))
    simp only [List.cons_append, colFind, if_neg ha]
    simp [ih2]

theorem colFind_append_left₂ (dc vc : String) (idf : List String)
    (h : ¬ vc ∈ idf) (hne : vc ≠ dc) :
    colFind vc (idf ++ [dc, vc]) = some (idf.length + 1) := by
  induction idf with
  | nil =>
    have hdv : dc ≠ vc := by intro hh; exact hne hh.symm
    simp [colFind, hdv]
  | cons a t ih =>
    have ha : a ≠ vc := by intro hh; exact h (by simp [hh])
    have ih2 := ih (by intro hh; exact h (by simp [hh]))
    simp only [List.cons_append, colFind, if_neg ha]
    simp [ih2]

/-! ### Lemmas about `mapMOpt` -/

theorem mapMOpt_eq_some_of (f : α → Option β) (g : α → β) (l : List α)
    (h : ∀ a ∈ l, f a = some (g a)) : mapMOpt f l = some (l.map g) := by
  induction l with
  | nil => rfl
  | cons a t ih =>
    simp only [mapMOpt, h a (by simp), ih (fun b hb => h b (by simp [hb])), List.map_cons]

theorem mapMOpt_isSome_of_mem (f : α → Option β) (l : List α) (rs : List β)
    (h : mapMOpt f l = some rs) (a : α) (ha : a ∈ l) : ∃ b, f a = some b := by
  induction l generalizing rs with
  | nil => simp at ha
  | cons c t ih =>
    simp only [mapMOpt] at h
    cases hc : f c with
    | none => rw [hc] at h; simp at h
    | some b =>
      rw [hc] at h
      cases ht : mapMOpt f t with
      | none => rw [ht] at h; simp at h
      | some ts =>
        rcases List.mem_cons.mp ha with h1 | h1
        · exact ⟨b, h1 ▸ hc⟩
        · exact ih ts ht h1

theorem mapMOpt_mem_inv (f : α → Option β) (l : List α) (rs : List β)
    (h : mapMOpt f l = some rs) (b : β) (hb : b ∈ rs) :
    ∃ a ∈ l, f a = some b := by
  induction l generalizing rs with
  | nil =>
    simp only [mapMOpt] at h
    rw [← Option.some_inj.mp h] at hb; simp at hb
  | cons c t ih =>
    simp only [mapMOpt] at h
    cases hc : f c with
    | none => rw [hc] at h; simp at h
    | some b2 =>
      rw [hc] at h
      cases ht : mapMOpt f t with
      | none => rw [ht] at h; simp at h
      | some ts =>
        rw [ht] at h
        rw [← Option.some_inj.mp h] at hb
        rcases List.mem_cons.mp hb with h1 | h1
        · exact ⟨c, by simp, h1 ▸ hc⟩
        · rcases ih ts ht h1 with ⟨a, ha1, ha2⟩
          exact ⟨a, by simp [ha1], ha2⟩

/-! ### Inversion lemmas for the melt pipeline steps -/

theorem dropRegionRows_ok_inv (df : DataFrame) (regs : List Cell) (d : DataFrame)
    (h : dropRegionRows df regs = Except.ok d) :
    ∃ i, colFind "RegionID" df.cols = some i ∧
      d = { df with rows := df.rows.filter (fun r => !decide (cellAt r i ∈ regs)) } := by
  unfold dropRegionRows colIdx? at h
  cases hc : colFind "RegionID" df.cols with
  | none => rw [hc] at h; simp at h
  | some i =>
    rw [hc] at h
    exact ⟨i, rfl, (Except.ok.injEq _ _ ▸ h).symm⟩

theorem afterDrops_ok_inv (df : DataFrame) (fs : List String) (regs : List Cell)
    (df2 : DataFrame) (h : afterDrops df fs regs = Except.ok df2) :
    ∃ df1, (if 0 < fs.length then dropColumns df fs else Except.ok df) = Except.ok df1 ∧
      (if 0 < regs.length then dropRegionRows df1 regs else Except.ok df1) = Except.ok df2 := by
  unfold afterDrops at h
  cases h1 : (if 0 < fs.length then dropColumns df fs else Except.ok df) with
  | error e => rw [h1] at h; simp at h
  | ok df1 => rw [h1] at h; exact ⟨df1, rfl, h⟩

theorem meltStep_ok_inv (df2 : DataFrame) (idf : List String) (dc vc : String)
    (df3 : DataFrame) (h : meltStep df2 idf dc vc = Except.ok df3) :
    (∀ f ∈ idf, f ∈ df2.cols) ∧
    df3 = { cols := idf ++ [dc, vc],
            rows := (meltValueCols df2.cols idf).flatMap (fun v =>
              df2.rows.map (meltRow df2 idf v)),
            indexName := none, indexVals := [] } := by
  unfold meltStep at h
  by_cases hall : idf.all (fun f => decide (f ∈ df2.cols)) = true
  · rw [if_pos hall] at h
    refine ⟨?_, (Except.ok.injEq _ _ ▸ h).symm⟩
    intro f hf
    have := List.all_eq_true.mp hall f hf
    exact of_decide_eq_true this
  · rw [if_neg hall] at h; simp at h

theorem toDatetimeCol_ok_inv (df : DataFrame) (c : String) (d : DataFrame)
    (h : toDatetimeCol df c = Except.ok d) :
    ∃ i rs, colFind c df.cols = some i ∧
      mapMOpt (fun r => (convDateCell (cellAt r i)).map (fun x => r.set i x)) df.rows
        = some rs ∧
      d = { df with rows := rs } := by
  unfold toDatetimeCol colIdx? at h
  split at h
  · simp at h
  next i hc =>
    split at h
    next rs hm =>
      exact ⟨i, rs, hc, hm, (Except.ok.injEq _ _ ▸ h).symm⟩
    next hm => simp at h

theorem dropNaRows_ok_inv (df : DataFrame) (c : String) (d : DataFrame)
    (h : dropNaRows df c = Except.ok d) :
    ∃ i, colFind c df.cols = some i ∧
      d = { df with rows := df.rows.filter (fun r => !decide (cellAt r i = Cell.null)) } := by
  unfold dropNaRows colIdx? at h
  cases hc : colFind c df.cols with
  | none => rw [hc] at h; simp at h
  | some i =>
    rw [hc] at h
    exact ⟨i, rfl, (Except.ok.injEq _ _ ▸ h).symm⟩

theorem setIndexStep_ok_inv (df : DataFrame) (f : String) (d : DataFrame)
    (h : setIndexStep df f = Except.ok d) :
    ∃ i, colFind f df.cols = some i ∧
      d = { cols := df.cols.eraseIdx i,
            rows := df.rows.map (fun r => r.eraseIdx i),
            indexName := some f,
            indexVals := df.rows.map (fun r => cellAt r i) } := by
  unfold setIndexStep colIdx? at h
  cases hc : colFind f df.cols with
  | none => rw [hc] at h; simp at h
  | some i =>
    rw [hc] at h
    exact ⟨i, rfl, (Except.ok.injEq _ _ ▸ h).symm⟩

theorem melt_ok_inv (df : DataFrame) (idf fs : List String) (regs : List Cell)
    (dc vc : String) (ixf : Option String) (dna : Bool) (out : DataFrame)
    (h : (melt_zillow_dataset df idf fs regs dc vc ixf dna).1 = Except.ok out) :
    ∃ df2 df3 df4 df5,
      afterDrops df fs regs = Except.ok df2 ∧
      meltStep df2 idf dc vc = Except.ok df3 ∧
      toDatetimeCol df3 dc = Except.ok df4 ∧
      (if dna then dropNaRows df4 vc else Except.ok df4) = Except.ok df5 ∧
      ((ixf = none ∧ out = df5) ∨
        ∃ f, ixf = some f ∧ setIndexStep df5 f = Except.ok out) := by
  unfold melt_zillow_dataset at h
  split at h
  · simp at h
  next df2 h2 =>
    simp only at h
    split at h
    · simp at h
    next df3 h3 =>
      split at h
      · simp at h
      next df4 h4 =>
        split at h
        · simp at h
        next df5 h5 =>
          split at h
          next =>
            simp only [Except.ok.injEq] at h
            exact ⟨df2, df3, df4, df5, h2, h3, h4, h5, Or.inl ⟨rfl, h.symm⟩⟩
          next f =>
            split at h
            · simp at h
            next df6 h6 =>
              simp only [Except.ok.injEq] at h
              exact ⟨df2, df3, df4, df5, h2, h3, h4, h5,
                Or.inr ⟨f, rfl, h ▸ h6⟩⟩

theorem melt_fst_eq (df : DataFrame) (idf fs : List String) (regs : List Cell)
    (dc vc : String) (dna : Bool) (df2 df3 df4 : DataFrame)
    (h2 : afterDrops df fs regs = Except.ok df2)
    (h3 : meltStep df2 idf dc vc = Except.ok df3)
    (h4 : toDatetimeCol df3 dc = Except.ok df4) :
    (melt_zillow_dataset df idf fs regs dc vc none dna).1 =
      (if dna then dropNaRows df4 vc else Except.ok df4) := by
  unfold melt_zillow_dataset
  simp only [h2, h3, h4]
  cases h5 : (if dna then dropNaRows df4 vc else Except.ok df4) with
  | error e => rfl
  | ok df5 => rfl

/-- The shape of one output row of the reshape after date parsing: the
id-field cells of the source row, the parsed calendar date of the value
column's label, and the source cell of that column.  This is the row shape
the melt pipeline is proved to produce (claim C1). -/
def meltRowDated (df : DataFrame) (id_fields : List String) (v : String) (r : List Cell) :
    List Cell :=
  id_fields.map (fun f => cellAt r ((colIdx? df f).getD 0)) ++
    [Cell.date ((parseDate v).getD ⟨1970, 1, 1⟩), cellAt r ((colIdx? df v).getD 0)]

theorem parseDate_valid (s : String) (dd : Date) (h : parseDate s = some dd) :
    Date.Valid dd := by
  unfold parseDate at h
  split at h
  next ys ms ds =>
    split at h
    next yv mv dv hy hm2 hd =>
      split at h
      next hb =>
        simp only [Option.some_inj] at h
        subst h
        exact ⟨hb.1, hb.2.1, hb.2.2.1, hb.2.2.2⟩
      next => simp at h
    next => simp at h
  next => simp at h

theorem meltRow_length (df : DataFrame) (idf : List String) (v : String) (r : List Cell) :
    (meltRow df idf v r).length = idf.length + 2 := by
  simp [meltRow]

theorem cellAt_meltRow_date (df : DataFrame) (idf : List String) (v : String)
    (r : List Cell) : cellAt (meltRow df idf v r) idf.length = Cell.str v := by
  unfold meltRow cellAt
  have hl : (idf.map (fun f => cellAt r ((colIdx? df f).getD 0))).length = idf.length :=
    List.length_map _ _
  rw [← hl]
  exact getD_append_len _ _ _ _

/-- The function applied rowwise by the date-conversion step at the date
column position. -/
def convRowAt (i : Nat) (r : List Cell) : Option (List Cell) :=
  (convDateCell (cellAt r i)).map (fun x => r.set i x)

/-- Total counterpart of the rowwise conversion, used to state what the
conversion produces on melt-shaped rows. -/
def forceDateRowAt (i : Nat) (r : List Cell) : List Cell :=
  r.set i
    (match cellAt r i with
     | Cell.str s => Cell.date ((parseDate s).getD ⟨1970, 1, 1⟩)
     | c => c)

theorem forceDateRowAt_meltRow (df : DataFrame) (idf : List String) (v : String)
    (r : List Cell) :
    forceDateRowAt idf.length (meltRow df idf v r) = meltRowDated df idf v r := by
  unfold forceDateRowAt
  rw [cellAt_meltRow_date]
  unfold meltRow meltRowDated
  have hl : (idf.map (fun f => cellAt r ((colIdx? df f).getD 0))).length = idf.length :=
    List.length_map _ _
  rw [← hl]
  exact set_append_len _ _ _ _

theorem convRowAt_meltRow (df : DataFrame) (idf : List String) (v : String)
    (r : List Cell) (dd : Date) (hv : parseDate v = some dd) :
    convRowAt idf.length (meltRow df idf v r) =
      some (meltRowDated df idf v r) := by
  have h2 : (meltRow df idf v r).set idf.length (Cell.date dd) = meltRowDated df idf v r := by
    unfold meltRow meltRowDated
    rw [hv]
    have hl : (idf.map (fun f => cellAt r ((colIdx? df f).getD 0))).length = idf.length :=
      List.length_map _ _
    rw [← hl]
    exact set_append_len _ _ _ _
  have h1 : convDateCell (Cell.str v) = some (Cell.date dd) := by
    show (parseDate v).map Cell.date = _
    rw [hv]
    rfl
  unfold convRowAt
  rw [cellAt_meltRow_date, h1]
  show some ((meltRow df idf v r).set idf.length (Cell.date dd)) = _
  rw [h2]

theorem flatMap_nil_fun (l : List α) : l.flatMap (fun _ => ([] : List β)) = [] := by
  induction l with
  | nil => rfl
  | cons a t ih => simp [ih]

theorem cellAt_meltRowDated_date (df : DataFrame) (idf : List String) (v : String)
    (r : List Cell) :
    cellAt (meltRowDated df idf v r) idf.length =
      Cell.date ((parseDate v).getD ⟨1970, 1, 1⟩) := by
  unfold meltRowDated cellAt
  have hl : (idf.map (fun f => cellAt r ((colIdx? df f).getD 0))).length = idf.length :=
    List.length_map _ _
  rw [← hl]
  exact getD_append_len _ _ _ _

/-- Characterisation of the frame produced by melt followed by date
conversion: its columns are the id fields plus the date and value columns,
and its rows are exactly one dated row per value-column x source-row pair;
moreover on a nonempty source every value-column label parses. -/
theorem melt_rows_char (df2 : DataFrame) (idf : List String) (dc vc : String)
    (df3 df4 : DataFrame)
    (hdc : ¬ dc ∈ idf)
    (h3 : meltStep df2 idf dc vc = Except.ok df3)
    (h4 : toDatetimeCol df3 dc = Except.ok df4) :
    df4.cols = idf ++ [dc, vc] ∧ df4.indexName = none ∧ df4.indexVals = [] ∧
    df4.rows = (meltValueCols df2.cols idf).flatMap (fun v =>
      df2.rows.map (meltRowDated df2 idf v)) ∧
    (df2.rows = [] ∨ ∀ v ∈ meltValueCols df2.cols idf, ∃ dd, parseDate v = some dd) := by
  obtain ⟨hall, hdf3⟩ := meltStep_ok_inv df2 idf dc vc df3 h3
  subst hdf3
  obtain ⟨i, rs, hc, hm, hdf4⟩ := toDatetimeCol_ok_inv _ dc df4 h4
  subst hdf4
  have hi : i = idf.length := by
    have := colFind_append_left₁ dc vc idf hdc
    simp only at hc
    rw [this] at hc
    exact (Option.some_inj.mp hc).symm
  subst hi
  have hparse : df2.rows = [] ∨
      ∀ v ∈ meltValueCols df2.cols idf, ∃ dd, parseDate v = some dd := by
    cases hrows : df2.rows with
    | nil => exact Or.inl rfl
    | cons r0 tl =>
      refine Or.inr ?_
      intro v hv
      have hr0 : r0 ∈ df2.rows := by rw [hrows]; exact List.mem_cons_self _ _
      have hmem : meltRow df2 idf v r0 ∈ (meltValueCols df2.cols idf).flatMap (fun v =>
          df2.rows.map (meltRow df2 idf v)) :=
        List.mem_flatMap.mpr ⟨v, hv, List.mem_map_of_mem _ hr0⟩
      obtain ⟨b, hb⟩ := mapMOpt_isSome_of_mem _ _ rs hm _ hmem
      rw [cellAt_meltRow_date] at hb
      cases hpd : parseDate v with
      | none =>
        have hcc : convDateCell (Cell.str v) = none := by
          show (parseDate v).map Cell.date = none
          rw [hpd]
          rfl
        rw [hcc] at hb
        simp at hb
      | some dd => exact ⟨dd, rfl⟩
  refine ⟨rfl, rfl, rfl, ?_, hparse⟩
  have hfg : ∀ row ∈ (meltValueCols df2.cols idf).flatMap (fun v =>
      df2.rows.map (meltRow df2 idf v)),
      convRowAt idf.length row = some (forceDateRowAt idf.length row) := by
    intro row hrow
    obtain ⟨v, hv, hrow2⟩ := List.mem_flatMap.mp hrow
    obtain ⟨r, hr, hreq⟩ := List.mem_map.mp hrow2
    subst hreq
    have hdd : ∃ dd, parseDate v = some dd := by
      rcases hparse with hnil | hp
      · rw [hnil] at hr; simp at hr
      · exact hp v hv
    obtain ⟨dd, hdd⟩ := hdd
    rw [convRowAt_meltRow df2 idf v r dd hdd, forceDateRowAt_meltRow]
  have hsome := mapMOpt_eq_some_of (convRowAt idf.length) (forceDateRowAt idf.length)
    _ hfg
  have hm2 : mapMOpt (convRowAt idf.length) ((meltValueCols df2.cols idf).flatMap
      (fun v => df2.rows.map (meltRow df2 idf v))) = some rs := hm
  rw [hm2] at hsome
  have hrs : rs = ((meltValueCols df2.cols idf).flatMap (fun v =>
      df2.rows.map (meltRow df2 idf v))).map (forceDateRowAt idf.length) :=
    Option.some_inj.mp hsome
  rw [hrs, List.map_flatMap]
  apply List.flatMap_congr
  intro v hv
  rw [List.map_map]
  apply List.map_congr_left
  intro r hr
  exact forceDateRowAt_meltRow df2 idf v r

/-! ### Claim theorems for the reshape stage -/

/-- C1: for every wide table with `R` rows and `C` value-columns remaining
after the excluded regions and dropped columns are removed,
`melt_zillow_dataset` produces (before any null-dropping, i.e. with the
drop flag off) exactly `R * C` output rows — one per original-row x
value-column combination, each row carrying the id-field cells of its
source row, a valid parsed calendar date derived from the column label,
and the original cell's value. -/
theorem C1_melt_shape (df : DataFrame) (idf fs : List String) (regs : List Cell)
    (dc vc : String) (out0 df2 : DataFrame)
    (hdc : ¬ dc ∈ idf)
    (h2 : afterDrops df fs regs = Except.ok df2)
    (h : (melt_zillow_dataset df idf fs regs dc vc none false).1 = Except.ok out0) :
    out0.rows.length = df2.rows.length * (meltValueCols df2.cols idf).length ∧
    out0.rows = (meltValueCols df2.cols idf).flatMap (fun v =>
      df2.rows.map (meltRowDated df2 idf v)) ∧
    (∀ r ∈ out0.rows, ∃ dd, cellAt r idf.length = Cell.date dd ∧ Date.Valid dd) := by
  obtain ⟨df2x, df3, df4, df5, h2x, h3, h4, h5, hout⟩ :=
    melt_ok_inv df idf fs regs dc vc none false out0 h
  rw [h2] at h2x
  injection h2x with h2e
  subst h2e
  rcases hout with ⟨_, houteq⟩ | ⟨f, hf, _⟩
  · simp only [if_neg (by simp : ¬ (false = true))] at h5
    injection h5 with h5e
    subst h5e
    subst houteq
    obtain ⟨hcols, hixn, hixv, hrowseq, hpar⟩ := melt_rows_char df2 idf dc vc df3 out0 hdc h3 h4
    refine ⟨?_, hrowseq, ?_⟩
    · rw [hrowseq]
      rw [length_flatMap_const _ _ df2.rows.length
        (fun v hv => List.length_map _ _)]
      exact Nat.mul_comm _ _
    · intro r hr
      rw [hrowseq] at hr
      obtain ⟨v, hv, hr2⟩ := List.mem_flatMap.mp hr
      obtain ⟨r0, hr0, hreq⟩ := List.mem_map.mp hr2
      subst hreq
      have hdd : ∃ dd, parseDate v = some dd := by
        rcases hpar with hnil | hp
        · rw [hnil] at hr0; simp at hr0
        · exact hp v hv
      obtain ⟨dd, hdd⟩ := hdd
      refine ⟨dd, ?_, parseDate_valid v dd hdd⟩
      rw [cellAt_meltRowDated_date, hdd]
      rfl
  · cases hf

theorem dropNaRows_eval (df : DataFrame) (c : String) (i : Nat)
    (hc : colFind c df.cols = some i) :
    dropNaRows df c = Except.ok
      { df with rows := df.rows.filter (fun r => !decide (cellAt r i = Cell.null)) } := by
  unfold dropNaRows colIdx?
  rw [hc]

/-- C5: when the drop flag is set, `melt_zillow_dataset` drops exactly the
rows whose value cell is null: the run with `drop_na` keeps precisely the
null-free rows of the run without it, and in particular every row whose
value equals zero (but is not null) is retained in the output. -/
theorem C5_dropna_null_only (df : DataFrame) (idf fs : List String) (regs : List Cell)
    (dc vc : String) (out0 : DataFrame)
    (hvc1 : ¬ vc ∈ idf) (hvc2 : vc ≠ dc)
    (h : (melt_zillow_dataset df idf fs regs dc vc none false).1 = Except.ok out0) :
    ∃ out1, (melt_zillow_dataset df idf fs regs dc vc none true).1 = Except.ok out1 ∧
      out1.rows = out0.rows.filter (fun r => !decide (cellAt r (idf.length + 1) = Cell.null)) ∧
      ∀ r ∈ out0.rows, cellAt r (idf.length + 1) = Cell.num 0 → r ∈ out1.rows := by
  obtain ⟨df2, df3, df4, df5, h2, h3, h4, h5, hout⟩ :=
    melt_ok_inv df idf fs regs dc vc none false out0 h
  rcases hout with ⟨_, houteq⟩ | ⟨f, hf, _⟩
  · simp only [if_neg (by simp : ¬ (false = true))] at h5
    injection h5 with h5e
    subst h5e
    subst houteq
    obtain ⟨hall, hdf3⟩ := meltStep_ok_inv df2 idf dc vc df3 h3
    obtain ⟨i, rs, hcd, hm, hdf4⟩ := toDatetimeCol_ok_inv df3 dc out0 h4
    have hcols : out0.cols = idf ++ [dc, vc] := by
      rw [hdf4, hdf3]
    have hvcf : colFind vc out0.cols = some (idf.length + 1) := by
      rw [hcols]
      exact colFind_append_left₂ dc vc idf hvc1 hvc2
    have heval := dropNaRows_eval out0 vc (idf.length + 1) hvcf
    have hfst := melt_fst_eq df idf fs regs dc vc true df2 df3 out0 h2 h3 h4
    refine ⟨{ out0 with
        rows := out0.rows.filter (fun r => !decide (cellAt r (idf.length + 1) = Cell.null)) },
      ?_, rfl, ?_⟩
    · rw [hfst]
      simp only [if_pos rfl]
      exact heval
    · intro r hr hz
      refine List.mem_filter.mpr ⟨hr, ?_⟩
      rw [hz]
      rfl
  · cases hf

theorem dropColumns_ok_cols (df : DataFrame) (fs : List String) (d : DataFrame)
    (h : dropColumns df fs = Except.ok d) :
    d.cols = df.cols.filter (fun c => !decide (c ∈ fs)) := by
  unfold dropColumns at h
  split at h
  · rw [← (Except.ok.injEq _ _ ▸ h : _ = d)]
  · simp at h

theorem melt_fst_error (df : DataFrame) (idf fs : List String) (regs : List Cell)
    (dc vc : String) (ixf : Option String) (dna : Bool) (e : String)
    (h2 : afterDrops df fs regs = Except.error e) :
    (melt_zillow_dataset df idf fs regs dc vc ixf dna).1 = Except.error e := by
  unfold melt_zillow_dataset
  rw [h2]

/-- C7 (amended): `melt_zillow_dataset` hardcodes the region-id column
name `RegionID` in its exclusion step: with a non-empty exclusion set, the
call fails with a missing-key error whenever the table has no column named
exactly `RegionID`, regardless of which caller-chosen names the identifier
columns carry. -/
theorem C7_regionid_name_hardcoded (df : DataFrame) (idf fs : List String)
    (regs : List Cell) (dc vc : String) (ixf : Option String) (dna : Bool)
    (hr : regs ≠ []) (hnc : ¬ "RegionID" ∈ df.cols) :
    ∃ e, (melt_zillow_dataset df idf fs regs dc vc ixf dna).1 = Except.error e := by
  have hregs : 0 < regs.length := List.length_pos.mpr hr
  cases h1 : (if 0 < fs.length then dropColumns df fs else Except.ok df) with
  | error e =>
    refine ⟨e, melt_fst_error df idf fs regs dc vc ixf dna e ?_⟩
    unfold afterDrops
    rw [h1]
  | ok df1 =>
    have hnc1 : ¬ "RegionID" ∈ df1.cols := by
      intro hmem
      apply hnc
      split at h1
      · have hcols := dropColumns_ok_cols df fs df1 h1
        rw [hcols] at hmem
        exact (List.mem_filter.mp hmem).1
      · injection h1 with h1e
        rw [h1e]
        exact hmem
    have hdr : dropRegionRows df1 regs = Except.error "KeyError: RegionID" := by
      unfold dropRegionRows colIdx?
      rw [(colFind_eq_none "RegionID" df1.cols).mpr hnc1]
    refine ⟨"KeyError: RegionID", melt_fst_error df idf fs regs dc vc ixf dna _ ?_⟩
    unfold afterDrops
    rw [h1]
    simp only [if_pos hregs]
    exact hdr

/-- C8 (amended): the line-16 excluded-region row drop is performed in
place, but it reaches the caller's table only when the column-drop step
did not already rebind the local name to a copy: with a non-empty
exclusion set, a call with a non-empty `fields_to_drop` returns the
caller's table unchanged, while a call with empty `fields_to_drop` (on a
table that has a `RegionID` column) hands the caller back its table with
exactly the excluded rows removed. -/
theorem C8_inplace_drop_scope (df : DataFrame) (idf : List String)
    (regs : List Cell) (dc vc : String) (ixf : Option String) (dna : Bool)
    (hr : regs ≠ []) :
    (∀ fs, fs ≠ [] → (melt_zillow_dataset df idf fs regs dc vc ixf dna).2 = df) ∧
    (∀ i, colFind "RegionID" df.cols = some i →
      (melt_zillow_dataset df idf [] regs dc vc ixf dna).2 =
        { df with rows := df.rows.filter (fun r => !decide (cellAt r i ∈ regs)) }) := by
  constructor
  · intro fs hfs
    have hlen : 0 < fs.length := List.length_pos.mpr hfs
    unfold melt_zillow_dataset
    cases h2 : afterDrops df fs regs with
    | error e => rfl
    | ok df2 =>
      simp only [if_pos hlen]
      repeat' split
      all_goals rfl
  · intro i hcf
    have hdrr : dropRegionRows df regs = Except.ok
        { df with rows := df.rows.filter (fun r => !decide (cellAt r i ∈ regs)) } := by
      unfold dropRegionRows colIdx?
      rw [hcf]
    have had : afterDrops df [] regs = Except.ok
        { df with rows := df.rows.filter (fun r => !decide (cellAt r i ∈ regs)) } := by
      unfold afterDrops
      simp only [List.length_nil, Nat.lt_irrefl, if_false, if_pos (List.length_pos.mpr hr)]
      exact hdrr
    unfold melt_zillow_dataset
    rw [had]
    simp only [List.length_nil, Nat.lt_irrefl, if_false]
    repeat' split
    all_goals rfl

theorem cellAt_meltRow_lt (df : DataFrame) (idf : List String) (v : String)
    (r : List Cell) (q : Nat) (hq : q < idf.length) :
    cellAt (meltRow df idf v r) q = cellAt r ((colIdx? df (idf.getD q "")).getD 0) := by
  unfold meltRow cellAt
  rw [getD_append_lt _ _ q Cell.null (by rw [List.length_map]; exact hq)]
  rw [getD_map_lt _ idf q Cell.null "" hq]

/-- No cell of any `RegionID`-labelled column of the frame, and no value
of a `RegionID`-named index, lies in the given exclusion set. -/
def NoBadRegion (df : DataFrame) (bad : List Cell) : Prop :=
  (∀ q, q < df.cols.length → df.cols.getD q "" = "RegionID" →
    ∀ r ∈ df.rows, ¬ cellAt r q ∈ bad) ∧
  (df.indexName = some "RegionID" → ∀ c ∈ df.indexVals, ¬ c ∈ bad)

/-- Every row of the frame has exactly one cell per column. -/
def RowsWF (df : DataFrame) : Prop :=
  ∀ r ∈ df.rows, r.length = df.cols.length

/-- C6: for every wide table and every exclusion set of region ids, no row
of a successful `melt_zillow_dataset` output carries a region identifier
belonging to the exclusion set, neither in a `RegionID`-labelled column
nor in a `RegionID`-named index; in particular with the default exclusion
set the hardcoded country-aggregate id never appears in the reshaped
output's identifier column. -/
theorem C6_excluded_regions_absent (df : DataFrame) (idf fs : List String)
    (regs : List Cell) (dc vc : String) (ixf : Option String) (dna : Bool)
    (out : DataFrame)
    (hdc : dc ≠ "RegionID") (hvc : vc ≠ "RegionID")
    (h : (melt_zillow_dataset df idf fs regs dc vc ixf dna).1 = Except.ok out) :
    NoBadRegion out regs := by
  by_cases hregs : regs = []
  · subst hregs
    constructor
    · intro q hq hname r hr
      simp
    · intro hidx c hc
      simp
  have hlen : 0 < regs.length := List.length_pos.mpr hregs
  obtain ⟨df2, df3, df4, df5, h2, h3, h4, h5, hout⟩ :=
    melt_ok_inv df idf fs regs dc vc ixf dna out h
  obtain ⟨df1, h1, hif⟩ := afterDrops_ok_inv df fs regs df2 h2
  rw [if_pos hlen] at hif
  obtain ⟨i0, hcf0, hdf2⟩ := dropRegionRows_ok_inv df1 regs df2 hif
  have hsurv : ∀ r ∈ df2.rows, ¬ cellAt r i0 ∈ regs := by
    intro r hr
    rw [hdf2] at hr
    have := (List.mem_filter.mp hr).2
    intro hmem
    rw [decide_eq_true hmem] at this
    simp at this
  have hcols2 : df2.cols = df1.cols := by rw [hdf2]
  obtain ⟨hall, hdf3⟩ := meltStep_ok_inv df2 idf dc vc df3 h3
  -- the invariant after the melt step
  have hcf2 : colFind "RegionID" df2.cols = some i0 := by rw [hcols2]; exact hcf0
  have hnb3 : NoBadRegion df3 regs := by
    rw [hdf3]
    constructor
    · intro q hq hname r hr
      simp only at hname hr hq
      obtain ⟨v, hv, hr2⟩ := List.mem_flatMap.mp hr
      obtain ⟨r0, hr0, hreq⟩ := List.mem_map.mp hr2
      subst hreq
      simp only [List.length_append, List.length_cons, List.length_nil] at hq
      have hcases : q < idf.length ∨ q = idf.length ∨ q = idf.length + 1 := by omega
      rcases hcases with hlt | heq | heq
      · rw [getD_append_lt idf [dc, vc] q "" hlt] at hname
        rw [cellAt_meltRow_lt df2 idf v r0 q hlt, hname]
        unfold colIdx?
        rw [hcf2]
        exact hsurv r0 hr0
      · subst heq
        rw [getD_append_len idf dc [vc] ""] at hname
        exact absurd hname hdc
      · subst heq
        rw [getD_append_len₂ idf dc vc [] ""] at hname
        exact absurd hname hvc
    · intro hidx
      exact Option.noConfusion hidx
  have hwf3 : RowsWF df3 := by
    rw [hdf3]
    intro r hr
    simp only at hr ⊢
    obtain ⟨v, hv, hr2⟩ := List.mem_flatMap.mp hr
    obtain ⟨r0, hr0, hreq⟩ := List.mem_map.mp hr2
    subst hreq
    rw [meltRow_length]
    simp
  -- the invariant after the date conversion
  obtain ⟨p, rs, hcp, hm, hdf4⟩ := toDatetimeCol_ok_inv df3 dc df4 h4
  have hpne : ∀ q, q < df3.cols.length → df3.cols.getD q "" = "RegionID" → p ≠ q := by
    intro q hq hname hpq
    subst hpq
    rw [colFind_getD dc df3.cols p "" hcp] at hname
    exact hdc hname
  have hnb4 : NoBadRegion df4 regs := by
    rw [hdf4]
    constructor
    · intro q hq hname r hr
      simp only at hname hr hq
      obtain ⟨a, ha, hconv⟩ := mapMOpt_mem_inv _ df3.rows rs hm r hr
      obtain ⟨x, hx, hax⟩ : ∃ x, convDateCell (cellAt a p) = some x ∧ r = a.set p x := by
        cases hcc : convDateCell (cellAt a p) with
        | none => rw [hcc] at hconv; simp at hconv
        | some x =>
          rw [hcc] at hconv
          exact ⟨x, rfl, (Option.some_inj.mp
            (show some (a.set p x) = some r from hconv)).symm⟩
      subst hax
      unfold cellAt
      rw [getD_set_ne a p q x Cell.null (hpne q hq hname)]
      exact hnb3.1 q hq hname a ha
    · intro hidx c hc
      exact hnb3.2 hidx c hc
  have hwf4 : RowsWF df4 := by
    rw [hdf4]
    intro r hr
    simp only at hr ⊢
    obtain ⟨a, ha, hconv⟩ := mapMOpt_mem_inv _ df3.rows rs hm r hr
    obtain ⟨x, hx, hax⟩ : ∃ x, convDateCell (cellAt a p) = some x ∧ r = a.set p x := by
      cases hcc : convDateCell (cellAt a p) with
      | none => rw [hcc] at hconv; simp at hconv
      | some x =>
        rw [hcc] at hconv
        exact ⟨x, rfl, (Option.some_inj.mp
          (show some (a.set p x) = some r from hconv)).symm⟩
    subst hax
    rw [List.length_set]
    exact hwf3 a ha
  -- the invariant after the optional null-drop
  have hnb5 : NoBadRegion df5 regs ∧ RowsWF df5 := by
    by_cases hdna : dna = true
    · rw [if_pos hdna] at h5
      obtain ⟨j, hcj, hdf5⟩ := dropNaRows_ok_inv df4 vc df5 h5
      subst hdf5
      constructor
      · constructor
        · intro q hq hname r hr
          simp only at hname hr hq
          exact hnb4.1 q hq hname r (List.mem_filter.mp hr).1
        · intro hidx c hc
          exact hnb4.2 hidx c hc
      · intro r hr
        simp only at hr ⊢
        exact hwf4 r (List.mem_filter.mp hr).1
    · rw [if_neg hdna] at h5
      injection h5 with h5e
      subst h5e
      exact ⟨hnb4, hwf4⟩
  -- the final optional set_index step
  rcases hout with ⟨_, houteq⟩ | ⟨f, hf, h6⟩
  · subst houteq
    exact hnb5.1
  · obtain ⟨j, hcj, hdout⟩ := setIndexStep_ok_inv df5 f out h6
    have hjlt : j < df5.cols.length := colFind_lt_length f df5.cols j hcj
    constructor
    · intro q hq hname r hr
      rw [hdout] at hq hname hr
      simp only at hname hr hq
      obtain ⟨a, ha, hreq⟩ := List.mem_map.mp hr
      subst hreq
      rw [List.length_eraseIdx] at hq
      rw [if_pos hjlt] at hq
      have hacols : a.length = df5.cols.length := hnb5.2 a ha
      by_cases hqj : q < j
      · rw [getD_eraseIdx_lt df5.cols j q "" hqj] at hname
        unfold cellAt
        rw [getD_eraseIdx_lt a j q Cell.null hqj]
        exact hnb5.1.1 q (by omega) hname a ha
      · have hjq : j ≤ q := by omega
        rw [getD_eraseIdx_ge df5.cols j q "" hjq hjlt] at hname
        unfold cellAt
        rw [getD_eraseIdx_ge a j q Cell.null hjq (by omega)]
        exact hnb5.1.1 (q + 1) (by omega) hname a ha
    · intro hidx c hc
      rw [hdout] at hidx hc
      simp only at hidx hc
      have hfR : f = "RegionID" := Option.some_inj.mp hidx
      subst hfR
      obtain ⟨a, ha, hreq⟩ := List.mem_map.mp hc
      subst hreq
      exact hnb5.1.1 j hjlt (colFind_getD _ df5.cols j "" hcj) a ha

/-! ### Date-order and window lemmas -/

theorem Date.le_rfl (a : Date) : Date.le a a := by
  unfold Date.le
  omega

theorem Date.le_trans (a b c : Date) (h1 : Date.le a b) (h2 : Date.le b c) :
    Date.le a c := by
  unfold Date.le at h1 h2 ⊢
  omega

theorem Date.le_total (a b : Date) : Date.le a b ∨ Date.le b a := by
  unfold Date.le
  omega

theorem foldl_max_le_self (ds : List Date) (a : Date) :
    Date.le a (ds.foldl (fun x b => if Date.le x b then b else x) a) := by
  induction ds generalizing a with
  | nil => exact Date.le_rfl a
  | cons b t ih =>
    rw [List.foldl_cons]
    by_cases hab : Date.le a b
    · rw [if_pos hab]
      exact Date.le_trans a b _ hab (ih b)
    · rw [if_neg hab]
      exact ih a

theorem foldl_max_mem (ds : List Date) (a : Date) :
    ds.foldl (fun x b => if Date.le x b then b else x) a = a ∨
      ds.foldl (fun x b => if Date.le x b then b else x) a ∈ ds := by
  induction ds generalizing a with
  | nil => exact Or.inl rfl
  | cons b t ih =>
    rw [List.foldl_cons]
    by_cases hab : Date.le a b
    · rw [if_pos hab]
      rcases ih b with h | h
      · exact Or.inr (by rw [h]; exact List.mem_cons_self _ _)
      · exact Or.inr (List.mem_cons_of_mem _ h)
    · rw [if_neg hab]
      rcases ih a with h | h
      · exact Or.inl h
      · exact Or.inr (List.mem_cons_of_mem _ h)

theorem foldl_max_ge_mem (ds : List Date) (a : Date) (d : Date) (hd : d ∈ ds) :
    Date.le d (ds.foldl (fun x b => if Date.le x b then b else x) a) := by
  induction ds generalizing a with
  | nil => simp at hd
  | cons b t ih =>
    rw [List.foldl_cons]
    rcases List.mem_cons.mp hd with h1 | h1
    · subst h1
      by_cases hab : Date.le a d
      · rw [if_pos hab]
        exact foldl_max_le_self t d
      · rw [if_neg hab]
        rcases Date.le_total a d with h2 | h2
        · exact absurd h2 hab
        · exact Date.le_trans d a _ h2 (foldl_max_le_self t a)
    · exact ih _ h1

theorem maxDate_spec (df : List LongRow) (hne : df ≠ []) :
    ∃ M, maxDate df = some M ∧ (∃ r ∈ df, r.date = M) ∧ ∀ r ∈ df, Date.le r.date M := by
  cases df with
  | nil => exact absurd rfl hne
  | cons r0 tl =>
    refine ⟨(tl.map (fun r : LongRow => r.date)).foldl
      (fun x b => if Date.le x b then b else x) r0.date, rfl, ?_, ?_⟩
    · rcases foldl_max_mem (tl.map (fun r => r.date)) r0.date with h | h
      · exact ⟨r0, List.mem_cons_self _ _, h.symm⟩
      · obtain ⟨r, hr, hrd⟩ := List.mem_map.mp h
        exact ⟨r, List.mem_cons_of_mem _ hr, hrd⟩
    · intro r hr
      rcases List.mem_cons.mp hr with h1 | h1
      · subst h1
        exact foldl_max_le_self _ _
      · exact foldl_max_ge_mem _ _ _ (List.mem_map_of_mem _ h1)

theorem maxDate_nil_iff (df : List LongRow) : maxDate df = none ↔ df = [] := by
  cases df with
  | nil => simp [maxDate]
  | cons r t =>
    constructor
    · intro h
      exact Option.noConfusion h
    · intro h
      exact List.noConfusion h

theorem subMonths_le (a : Date) (k : Nat) (hv : Date.Valid a) :
    Date.le (Date.subMonths a k) a := by
  obtain ⟨h1, h2, _, _⟩ := hv
  unfold Date.subMonths Date.le
  dsimp only
  by_cases hcy : (a.y * 12 + (a.m - 1) - k) / 12 = a.y
  · by_cases hcm : (a.y * 12 + (a.m - 1) - k) % 12 + 1 = a.m
    · exact Or.inr ⟨hcy, Or.inr ⟨hcm, Nat.min_le_left _ _⟩⟩
    · refine Or.inr ⟨hcy, Or.inl ?_⟩
      omega
  · refine Or.inl ?_
    omega

theorem mem_windowRows (df : List LongRow) (months : Nat) (M : Date)
    (hM : maxDate df = some M) (r : LongRow) :
    r ∈ windowRows df months ↔
      r ∈ df ∧ Date.le (Date.subMonths M months) r.date := by
  unfold windowRows
  rw [hM, List.mem_filter]
  simp

/-! ### Claim theorems for the ranking stage: window bounds -/

/-- C2: for every non-empty input table, `get_top_regions_by_mom_change`
takes the window's end to be the maximum date present in the table,
computes the window start by calendar-month subtraction from that end, and
keeps exactly the rows whose date is at or after that start — an inclusive
lower bound that also keeps the rows carrying the maximum date itself. -/
theorem C2_trailing_window (df : List LongRow) (months : Nat)
    (hne : df ≠ []) (hv : ∀ r ∈ df, Date.Valid r.date) :
    ∃ M, maxDate df = some M ∧
      (∃ r ∈ df, r.date = M) ∧ (∀ r ∈ df, Date.le r.date M) ∧
      (∀ r ∈ df, (r ∈ windowRows df months ↔
        Date.le (Date.subMonths M months) r.date)) ∧
      (∀ r ∈ df, r.date = M → r ∈ windowRows df months) := by
  obtain ⟨M, hM, hmem, hub⟩ := maxDate_spec df hne
  refine ⟨M, hM, hmem, hub, ?_, ?_⟩
  · intro r hr
    rw [mem_windowRows df months M hM r]
    exact and_iff_right hr
  · intro r hr hdate
    rw [mem_windowRows df months M hM r]
    refine ⟨hr, ?_⟩
    rw [hdate]
    obtain ⟨r0, hr0, hr0d⟩ := hmem
    exact subMonths_le M months (hr0d ▸ hv r0 hr0)

/-! ### Sorting lemmas for the ranking stage -/

theorem length_insertDesc (x : RankedRow) (l : List RankedRow) :
    (insertDesc x l).length = l.length + 1 := by
  induction l with
  | nil => rfl
  | cons b t ih =>
    unfold insertDesc
    by_cases h : rkey b ≤ rkey x
    · rw [if_pos h]
      rfl
    · rw [if_neg h]
      simp [ih]

theorem length_sortDesc (l : List RankedRow) : (sortDesc l).length = l.length := by
  induction l with
  | nil => rfl
  | cons a t ih =>
    unfold sortDesc
    rw [length_insertDesc, ih]
    rfl

theorem length_insertKey (x : ℚ × String) (l : List (ℚ × String)) :
    (insertKey x l).length = l.length + 1 := by
  induction l with
  | nil => rfl
  | cons b t ih =>
    unfold insertKey
    by_cases h : keyLe x b = true
    · rw [if_pos h]
      rfl
    · rw [if_neg h]
      simp [ih]

theorem length_sortKeys (l : List (ℚ × String)) : (sortKeys l).length = l.length := by
  induction l with
  | nil => rfl
  | cons a t ih =>
    unfold sortKeys
    rw [length_insertKey, ih]
    rfl

theorem filter_split_length (p : α → Bool) (l : List α) :
    (l.filter p).length + (l.filter (fun a => !p a)).length = l.length := by
  induction l with
  | nil => rfl
  | cons a t ih =>
    by_cases h : p a
    · simp [List.filter_cons, h]
      omega
    · simp [List.filter_cons, h]
      omega

theorem length_sortValuesDesc (l : List RankedRow) :
    (sortValuesDesc l).length = l.length := by
  unfold sortValuesDesc
  rw [List.length_append, length_sortDesc]
  have h := filter_split_length (fun a : RankedRow => !decide (a.mom = none)) l
  simp only [Bool.not_not] at h
  omega

theorem length_avg_mom (df : List LongRow) :
    (avg_mom df).length = (keysOf df).length := by
  unfold avg_mom
  rw [List.length_map, length_sortKeys]

/-- C3 (amended): the length of the ranked result.  For `N ≥ 0` it is
`min N (number of distinct qualifying region groups in the window)` — in
particular `0` on an empty input or for `N = 0`, and all groups are
returned without error when fewer than `N` qualify.  For `N < 0`, however,
`head` keeps all but the last `|N|` rows (Python slice semantics), so the
length is `#groups - |N|`, not `0`. -/
theorem C3_result_length (df : List LongRow) (months : Nat) (n : Int) :
    ((get_top_regions_by_mom_change df months n).1).length =
      (if 0 ≤ n then min n.toNat (keysOf (windowRows df months)).length
       else (keysOf (windowRows df months)).length - (-n).toNat) ∧
    (df = [] → ((get_top_regions_by_mom_change df months n).1).length = 0) := by
  have hL : (sortValuesDesc (avg_mom (windowRows df months))).length =
      (keysOf (windowRows df months)).length := by
    rw [length_sortValuesDesc, length_avg_mom]
  have hmain : ((get_top_regions_by_mom_change df months n).1).length =
      (if 0 ≤ n then min n.toNat (keysOf (windowRows df months)).length
       else (keysOf (windowRows df months)).length - (-n).toNat) := by
    show (pdHead n (sortValuesDesc (avg_mom (windowRows df months)))).length = _
    unfold pdHead
    rw [List.length_take, hL]
    by_cases hn : 0 ≤ n
    · rw [if_pos hn, if_pos hn]
    · rw [if_neg hn, if_neg hn]
      have := Nat.sub_le (keysOf (windowRows df months)).length (-n).toNat
      omega
  refine ⟨hmain, ?_⟩
  intro hdf
  subst hdf
  rw [hmain]
  have hw : windowRows ([] : List LongRow) months = [] := rfl
  rw [hw]
  show (if 0 ≤ n then min n.toNat (([] : List (ℚ × String))).length else _) = 0
  by_cases hn : 0 ≤ n
  · rw [if_pos hn]
    simp
  · rw [if_neg hn]
    have hk : (keysOf ([] : List LongRow)).length = 0 := rfl
    omega

/-- C9: when the window start lies at or before every date in the table,
the trailing-window ranking coincides with the ranking computed with no
window filter at all. -/
theorem C9_window_covers_all (df : List LongRow) (months : Nat) (n : Int)
    (h : ∀ M, maxDate df = some M →
      ∀ r ∈ df, Date.le (Date.subMonths M months) r.date) :
    (get_top_regions_by_mom_change df months n).1 = rank_no_window df n := by
  have hw : windowRows df months = df := by
    unfold windowRows
    cases hM : maxDate df with
    | none =>
      rw [(maxDate_nil_iff df).mp hM]
    | some M =>
      apply List.filter_eq_self.mpr
      intro r hr
      exact decide_eq_true (h M hM r hr)
  show pdHead n (sortValuesDesc (avg_mom (windowRows df months))) = _
  rw [hw]
  rfl

/-- C10: `get_top_regions_by_mom_change` never mutates its input: the
caller's table after the call is exactly the table passed in — every
operation of the embedded pipeline (max, offset subtraction, mask
selection, grouped mean, non-inplace sort, head) builds a new table. -/
theorem C10_input_unchanged (df : List LongRow) (months : Nat) (n : Int) :
    (get_top_regions_by_mom_change df months n).2 = df := rfl

/-! ### Concrete example data, witnesses and counterexamples -/

/-- Example wide table: the country-aggregate row (id 102001), a region
with a zero February value, and a region with a null February value. -/
def exWide : DataFrame :=
  { cols := ["RegionID", "RegionName", "2020-01-31", "2020-02-29"],
    rows := [[Cell.num 102001, Cell.str "United States", Cell.num 7, Cell.num 8],
             [Cell.num 1, Cell.str "A", Cell.num 100, Cell.num 0],
             [Cell.num 2, Cell.str "B", Cell.num 200, Cell.null]] }

/-- `exWide` after the excluded-region drop (no columns dropped). -/
def exAfter : DataFrame :=
  { cols := ["RegionID", "RegionName", "2020-01-31", "2020-02-29"],
    rows := [[Cell.num 1, Cell.str "A", Cell.num 100, Cell.num 0],
             [Cell.num 2, Cell.str "B", Cell.num 200, Cell.null]] }

/-- The reshape of `exWide` with the drop flag off. -/
def exMelt0 : DataFrame :=
  { cols := ["RegionID", "RegionName", "Date", "Value"],
    rows := [[Cell.num 1, Cell.str "A", Cell.date ⟨2020, 1, 31⟩, Cell.num 100],
             [Cell.num 2, Cell.str "B", Cell.date ⟨2020, 1, 31⟩, Cell.num 200],
             [Cell.num 1, Cell.str "A", Cell.date ⟨2020, 2, 29⟩, Cell.num 0],
             [Cell.num 2, Cell.str "B", Cell.date ⟨2020, 2, 29⟩, Cell.null]] }

/-- The reshape of `exWide` with the drop flag on: the null value row is
gone, the zero value row is kept. -/
def exMelt1 : DataFrame :=
  { cols := ["RegionID", "RegionName", "Date", "Value"],
    rows := [[Cell.num 1, Cell.str "A", Cell.date ⟨2020, 1, 31⟩, Cell.num 100],
             [Cell.num 2, Cell.str "B", Cell.date ⟨2020, 1, 31⟩, Cell.num 200],
             [Cell.num 1, Cell.str "A", Cell.date ⟨2020, 2, 29⟩, Cell.num 0]] }

/-- Example wide table whose region-id column is named `RID`. -/
def exNoRid : DataFrame :=
  { cols := ["RID", "2020-01-31"],
    rows := [[Cell.num 5, Cell.num 9]] }

/-- Example long table for the ranking stage. -/
def exLong : List LongRow :=
  [⟨1, "A", ⟨2020, 1, 31⟩, some 1⟩,
   ⟨1, "A", ⟨2020, 2, 29⟩, some 2⟩,
   ⟨2, "B", ⟨2020, 2, 29⟩, some 3⟩,
   ⟨2, "B", ⟨2018, 2, 28⟩, some 100⟩]

/-- Two-region long table used by the negative-N counterexample. -/
def exLong3 : List LongRow :=
  [⟨1, "A", ⟨2020, 1, 31⟩, some 1⟩,
   ⟨2, "B", ⟨2020, 1, 31⟩, some 2⟩]

section
attribute [local semireducible] Rat.add Rat.mul Rat.inv
set_option maxRecDepth 8000

/-- Witness for C1 at the example table. -/
theorem C1_melt_shape_witness :
    exMelt0.rows.length =
      exAfter.rows.length * (meltValueCols exAfter.cols ["RegionID", "RegionName"]).length ∧
    exMelt0.rows = (meltValueCols exAfter.cols ["RegionID", "RegionName"]).flatMap (fun v =>
      exAfter.rows.map (meltRowDated exAfter ["RegionID", "RegionName"] v)) ∧
    (∀ r ∈ exMelt0.rows, ∃ dd,
      cellAt r (["RegionID", "RegionName"] : List String).length = Cell.date dd ∧
        Date.Valid dd) :=
  C1_melt_shape exWide ["RegionID", "RegionName"] [] [Cell.num US_COUNTRY_REGION_ID]
    "Date" "Value" exMelt0 exAfter (by decide) (by decide) (by decide)

/-- Witness for C2 at the example long table. -/
theorem C2_trailing_window_witness :
    ∃ M, maxDate exLong = some M ∧
      (∃ r ∈ exLong, r.date = M) ∧ (∀ r ∈ exLong, Date.le r.date M) ∧
      (∀ r ∈ exLong, (r ∈ windowRows exLong 12 ↔
        Date.le (Date.subMonths M 12) r.date)) ∧
      (∀ r ∈ exLong, r.date = M → r ∈ windowRows exLong 12) :=
  C2_trailing_window exLong 12 (by decide) (by decide)

/-- Counterexample for C3 as stated: with two qualifying regions and
`N = -1`, the result has one row, not zero, because `head` with a negative
argument keeps all but the last `|N|` rows. -/
theorem C3_negative_head_counterexample :
    ¬ ((get_top_regions_by_mom_change exLong3 12 (-1)).1.length = 0) := by
  decide

/-- Witness for C5 at the example table. -/
theorem C5_dropna_null_only_witness :
    ∃ out1, (melt_zillow_dataset exWide ["RegionID", "RegionName"] []
        [Cell.num US_COUNTRY_REGION_ID] "Date" "Value" none true).1 = Except.ok out1 ∧
      out1.rows = exMelt0.rows.filter (fun r =>
        !decide (cellAt r ((["RegionID", "RegionName"] : List String).length + 1) = Cell.null)) ∧
      ∀ r ∈ exMelt0.rows,
        cellAt r ((["RegionID", "RegionName"] : List String).length + 1) = Cell.num 0 →
          r ∈ out1.rows :=
  C5_dropna_null_only exWide ["RegionID", "RegionName"] []
    [Cell.num US_COUNTRY_REGION_ID] "Date" "Value" exMelt0
    (by decide) (by decide) (by decide)

/-- Witness for C6 at the example table. -/
theorem C6_excluded_regions_absent_witness :
    NoBadRegion exMelt1 [Cell.num US_COUNTRY_REGION_ID] :=
  C6_excluded_regions_absent exWide ["RegionID", "RegionName"] []
    [Cell.num US_COUNTRY_REGION_ID] "Date" "Value" none true exMelt1
    (by decide) (by decide) (by decide)

/-- Counterexample for C7 as stated: the region-exclusion step does not
work with a caller-chosen region-id column name — with the id column named
`RID` and the default exclusion set, the reshape raises a missing-key
error for the hardcoded name `RegionID`. -/
theorem C7_caller_named_id_counterexample :
    (melt_zillow_dataset exNoRid ["RID"] [] [Cell.num US_COUNTRY_REGION_ID]
      "Date" "Value" none true).1 = Except.error "KeyError: RegionID" := by
  decide

/-- Witness for the amended C7 at the example table. -/
theorem C7_regionid_name_hardcoded_witness :
    ∃ e, (melt_zillow_dataset exNoRid ["RID"] [] [Cell.num US_COUNTRY_REGION_ID]
      "Date" "Value" none true).1 = Except.error e :=
  C7_regionid_name_hardcoded exNoRid ["RID"] [] [Cell.num US_COUNTRY_REGION_ID]
    "Date" "Value" none true (by decide) (by decide)

/-- Counterexample for C8 as stated: with a non-empty `fields_to_drop`,
the caller's table comes back unchanged even though it contains a row with
the excluded country-aggregate id — the in-place drop hit the copy made
by the column-drop step, not the caller's object. -/
theorem C8_no_mutation_counterexample :
    (melt_zillow_dataset exWide ["RegionID"] ["RegionName"]
      [Cell.num US_COUNTRY_REGION_ID] "Date" "Value" none true).2 = exWide ∧
    cellAt (exWide.rows.getD 0 []) 0 = Cell.num US_COUNTRY_REGION_ID := by
  constructor
  · decide
  · decide

/-- Witness for the amended C8 at the example table. -/
theorem C8_inplace_drop_scope_witness :
    (melt_zillow_dataset exWide ["RegionID", "RegionName"] ["RegionName"]
      [Cell.num US_COUNTRY_REGION_ID] "Date" "Value" none true).2 = exWide ∧
    (melt_zillow_dataset exWide ["RegionID", "RegionName"] []
      [Cell.num US_COUNTRY_REGION_ID] "Date" "Value" none true).2 =
      { exWide with rows := exWide.rows.filter (fun r =>
          !decide (cellAt r 0 ∈ [Cell.num US_COUNTRY_REGION_ID])) } :=
  ⟨(C8_inplace_drop_scope exWide ["RegionID", "RegionName"]
      [Cell.num US_COUNTRY_REGION_ID] "Date" "Value" none true (by decide)).1
      ["RegionName"] (by decide),
   (C8_inplace_drop_scope exWide ["RegionID", "RegionName"]
      [Cell.num US_COUNTRY_REGION_ID] "Date" "Value" none true (by decide)).2
      0 (by decide)⟩

/-- Witness for C9 at the example long table with a window long enough to
reach back past the earliest date. -/
theorem C9_window_covers_all_witness :
    (get_top_regions_by_mom_change exLong 36 25).1 = rank_no_window exLong 25 :=
  C9_window_covers_all exLong 36 25 (by
    intro M hM r hr
    have hMax : maxDate exLong = some ⟨2020, 2, 29⟩ := by decide
    rw [hMax] at hM
    have hMe : M = ⟨2020, 2, 29⟩ := (Option.some_inj.mp hM).symm
    subst hMe
    revert r
    decide)

end

end Zillow
